import Mathlib

/-!
Verification development for the personal-news curation-and-summarization
pipeline (src/src/news/fetchers.py, src/src/news/filters.py,
src/src/ai/summarizer.py).

The Python code is shallowly embedded: Python `str` values are `List Char`
(so that all string operations are executable and kernel-reducible),
Python floats (all of which hold exact decimal/rational values in this
code base) are `ℚ`, and `datetime` values are wall-clock seconds plus an
optional UTC offset.  Mutation of shared `Article` objects is modelled by
explicit state passing: the filter loop returns, besides the accepted
articles, the post-call states of all processed articles.
-/

attribute [local semireducible] Rat.add Rat.mul Rat.inv Rat.sub

set_option maxRecDepth 100000
set_option maxHeartbeats 1000000

namespace PersonalNews

/-- Python strings, embedded as lists of characters so that every string
operation used by the code reduces inside the kernel. -/
abbrev PyStr := List Char

/-- Python `str.lower()` (ASCII case folding, which is all the code relies on). -/
def lower (s : PyStr) : PyStr := s.map Char.toLower

/-- Python `str.strip()` with no arguments: remove leading and trailing
whitespace. -/
def strip (s : PyStr) : PyStr :=
  ((s.dropWhile Char.isWhitespace).reverse.dropWhile Char.isWhitespace).reverse

/-- Python `str.split(sep)` for a single-character separator: split at every
occurrence, keeping empty pieces (`"a//b".split("/") == ["a","","b"]`). -/
def splitOnChar (sep : Char) : PyStr → List PyStr
  | [] => [[]]
  | c :: t =>
    if c = sep then [] :: splitOnChar sep t
    else
      match splitOnChar sep t with
      | [] => [[c]]
      | h :: r => (c :: h) :: r

/-- Python `str.split()` with no arguments: tokens separated by runs of
whitespace, with empty tokens dropped. -/
def splitWs (s : PyStr) : List PyStr :=
  (splitOnChar ' ' (s.map fun c => if c.isWhitespace then ' ' else c)).filter (· ≠ [])

/-- Python `needle in hay` substring containment. -/
def containsSub (hay needle : PyStr) : Bool :=
  match hay with
  | [] => needle.isEmpty
  | _ :: t => needle.isPrefixOf hay || containsSub t needle

/-- Fuel-driven worker for `replaceAll` (fuel keeps the recursion structural,
so that it reduces in the kernel). -/
def replaceFuel (pat rep : PyStr) : Nat → PyStr → PyStr
  | 0, s => s
  | _ + 1, [] => []
  | fuel + 1, c :: t =>
    if pat ≠ [] ∧ pat.isPrefixOf (c :: t) then
      rep ++ replaceFuel pat rep fuel (List.drop (pat.length - 1) t)
    else
      c :: replaceFuel pat rep fuel t

/-- Python `s.replace(pat, rep)`: replace every (non-overlapping, leftmost)
occurrence of `pat` by `rep`. -/
def replaceAll (s pat rep : PyStr) : PyStr :=
  replaceFuel pat rep s.length s

/-- Python `s.lstrip(chars)`: drop leading characters belonging to `chars`. -/
def lstripAny (s : PyStr) (chars : List Char) : PyStr :=
  s.dropWhile (fun c => chars.contains c)

/-- Python `s.startswith(p)`. -/
def pyStartsWith (s p : PyStr) : Bool := p.isPrefixOf s

/-- Digit characters of a natural number (fuel-driven, most significant first). -/
def natDigits : Nat → Nat → List Char
  | 0, _ => []
  | _ + 1, 0 => []
  | fuel + 1, n => natDigits fuel (n / 10) ++ [Char.ofNat (48 + n % 10)]

/-- Decimal rendering of a natural number. -/
def natToChars (n : Nat) : PyStr :=
  if n = 0 then ['0'] else natDigits (n + 1) n

/-- Zero-padded two-digit rendering (as `strftime` produces for `%m`, `%d`,
`%H`, `%M`). -/
def pad2 (n : Nat) : PyStr :=
  if n < 10 then '0' :: natToChars n else natToChars n

/-- Model of Python `float(s)` restricted to optionally signed plain decimal
literals (`"5"`, `"5."`, `".5"`, `"+1.25"`, `"-3"`); anything else — in
particular non-numeric text such as `"abc"` — yields `none`, which models
`float` raising `ValueError`.  (Exponents, `inf`/`nan` and underscores are
not modelled; the repository never feeds them to `float`.) -/
def pyFloat? (s : PyStr) : Option ℚ :=
  let withSign : ℚ × PyStr :=
    match s with
    | '+' :: t => (1, t)
    | '-' :: t => (-1, t)
    | t => (1, t)
  let sign := withSign.1
  let rest := withSign.2
  let intPart := rest.takeWhile (· ≠ '.')
  let afterInt := rest.dropWhile (· ≠ '.')
  let digitsVal : PyStr → ℚ := fun l =>
    ((l.foldl (fun a c => 10 * a + (c.toNat - 48)) 0 : Nat) : ℚ)
  match afterInt with
  | [] =>
    if intPart ≠ [] ∧ intPart.all Char.isDigit then
      some (sign * digitsVal intPart)
    else none
  | _ :: frac =>
    if frac.all (· ≠ '.') ∧ intPart.all Char.isDigit ∧ frac.all Char.isDigit ∧
        (intPart ≠ [] ∨ frac ≠ []) then
      some (sign * (digitsVal intPart + digitsVal frac / 10 ^ frac.length))
    else none

/-- Fuel-driven longest-common-subsequence length (fuel = total length keeps
the recursion structural so it reduces in the kernel). -/
def lcsF : Nat → PyStr → PyStr → Nat
  | 0, _, _ => 0
  | _ + 1, [], _ => 0
  | _ + 1, _ :: _, [] => 0
  | fuel + 1, a :: as, b :: bs =>
    if a = b then lcsF fuel as bs + 1
    else max (lcsF fuel (a :: as) bs) (lcsF fuel as (b :: bs))

/-- Longest-common-subsequence length of two strings. -/
def lcs (a b : PyStr) : Nat := lcsF (a.length + b.length) a b

/-- Modelled from the spec: `difflib.SequenceMatcher(None, a, b).ratio()`
(standard library, not part of the repository).  The spec describes it as a
"normalized edit/alignment ratio in [0,1], symmetric, 1.0 = identical"; it is
modelled as the alignment ratio `2*M/(|a|+|b|)` with `M` the
longest-common-subsequence length (and `1` when both strings are empty, as
`difflib` returns). -/
def similarity (a b : PyStr) : ℚ :=
  if a.length + b.length = 0 then 1
  else 2 * (lcs a b : ℚ) / ((a.length : ℚ) + (b.length : ℚ))

/-- Python regex word character (`\w`), restricted to ASCII alphanumerics and
underscore (the only characters the repository's topics use). -/
def isWordChar (c : Char) : Bool := c.isAlphanum || c = '_'

/-- Whether `word` matches in `text` at position `p` with a `\b` word boundary
immediately before position `p` (the semantics of
`re.search(rf"\b{re.escape(word)}\w*", text)`; the trailing `\w*` always
matches, possibly emptily). -/
def boundaryMatchAt (word text : PyStr) (p : Nat) : Bool :=
  word.isPrefixOf (text.drop p) &&
    (match (text.take p).getLast?, (text.drop p).head? with
     | none, none => false
     | none, some here => isWordChar here
     | some prev, none => isWordChar prev
     | some prev, some here => isWordChar prev != isWordChar here)

/-- Model of `re.search(rf"\b{re.escape(word)}\w*", text) is not None`:
some position carries a word-boundary-anchored occurrence of `word`. -/
def reWordSearch (word text : PyStr) : Bool :=
  (List.range (text.length + 1)).any (fun p => boundaryMatchAt word text p)

/-- Python `datetime`: wall-clock seconds as written, plus the UTC offset in
seconds when the value is timezone-aware (`none` = naive). -/
structure PyDateTime where
  wall : ℤ
  tz : Option ℤ
deriving DecidableEq

/-- Absolute UTC instant of a datetime, after the code's normalization
`if dt.tzinfo is None: dt = dt.replace(tzinfo=UTC)`: a naive value is read as
UTC wall-clock, an aware value is shifted by its offset.  Comparison of two
aware datetimes in Python compares exactly these instants. -/
def PyDateTime.asUTC (d : PyDateTime) : ℤ := d.wall - d.tz.getD 0

/-- Calendar date (year, month, day) of a day count since the Unix epoch
(Howard Hinnant's civil-from-days algorithm, as used by `datetime`). -/
def civilFromDays (z0 : ℤ) : ℤ × ℤ × ℤ :=
  let z := z0 + 719468
  let era := z.fdiv 146097
  let doe := z - era * 146097
  let yoe := (doe - doe.fdiv 1460 + doe.fdiv 36524 - doe.fdiv 146096).fdiv 365
  let y := yoe + era * 400
  let doy := doe - (365 * yoe + yoe.fdiv 4 - yoe.fdiv 100)
  let mp := (5 * doy + 2).fdiv 153
  let d := doy - (153 * mp + 2).fdiv 5 + 1
  let m := mp + (if mp < 10 then 3 else -9)
  (y + (if m ≤ 2 then 1 else 0), m, d)

/-- `dt.strftime("%Y-%m-%d")` on a wall-clock timestamp in seconds. -/
def strftimeDate (wall : ℤ) : PyStr :=
  let days := wall.fdiv 86400
  let ymd := civilFromDays days
  natToChars ymd.1.toNat ++ '-' :: pad2 ymd.2.1.toNat ++ '-' :: pad2 ymd.2.2.toNat

/-- `dt.strftime("%Y-%m-%d %H:%M")` on a wall-clock timestamp in seconds. -/
def strftimeMinute (wall : ℤ) : PyStr :=
  let secOfDay := (wall - wall.fdiv 86400 * 86400).toNat
  strftimeDate wall ++ ' ' :: pad2 (secOfDay / 3600) ++ ':' :: pad2 (secOfDay % 3600 / 60)

/-- `Article` (src/src/news/fetchers.py:22-49): one ingested news item.
`relevance_score` defaults to `0.0` at construction and is mutated by the
curation filter. -/
structure Article where
  title : PyStr
  description : PyStr
  url : PyStr
  source : PyStr
  published_at : PyDateTime
  content : PyStr
  relevance_score : ℚ := 0
deriving DecidableEq

/-- `ContentFilter` (src/src/news/filters.py:11-15).  The dedup sets live on
the instance: `__init__` creates them empty and `filter_articles` only ever
adds to them.  Python sets are modelled as lists (only membership and
iteration are used). -/
structure ContentFilter where
  min_relevance_score : ℚ := 3/5
  seen_urls : List PyStr := []
  seen_titles : List PyStr := []
deriving DecidableEq

/-- `ContentFilter._is_duplicate` (filters.py:55-68): URL already seen, or
lower-cased trimmed title more than 0.85-similar to some seen title. -/
def is_duplicate (cf : ContentFilter) (a : Article) : Bool :=
  cf.seen_urls.contains a.url ||
    cf.seen_titles.any (fun seen =>
      decide ((17 : ℚ)/20 < similarity (strip (lower a.title)) seen))

/-- Per-word accumulation of `_calculate_relevance` (filters.py:82-90):
`+1` for a verbatim substring occurrence, a further `+0.5` for a
word-boundary-prefixed regex match. -/
def wordMatchStep (text : PyStr) (m : ℚ) (word : PyStr) : ℚ :=
  let m := if containsSub text word then m + 1 else m
  if reWordSearch word text then m + 1/2 else m

/-- Per-topic accumulation of `_calculate_relevance` (filters.py:78-96):
add the capped per-topic score and bump `total_checks`, but only for topics
with at least one word. -/
def topicScoreStep (text : PyStr) (acc : ℚ × ℕ) (topic : PyStr) : ℚ × ℕ :=
  let topic_words := splitWs (lower topic)
  let topic_matches := topic_words.foldl (wordMatchStep text) 0
  if topic_words ≠ [] then
    (acc.1 + min (topic_matches / (topic_words.length : ℚ)) 1, acc.2 + 1)
  else acc

/-- Title-boost accumulation of `_calculate_relevance` (filters.py:102-106):
`+0.2`, capped at `1.0`, per topic occurring verbatim in the title. -/
def titleBoostStep (title_lower : PyStr) (s : ℚ) (topic : PyStr) : ℚ :=
  if containsSub title_lower (lower topic) then min (s + 1/5) 1 else s

/-- `ContentFilter._calculate_relevance` (filters.py:70-125).  `now` is the
UTC instant of `datetime.now(UTC)` in seconds; the recency comparison never
raises in this model, matching the non-fatal `try/except` of the source. -/
def calculate_relevance (a : Article) (topics : List PyStr) (now : ℤ) : ℚ :=
  let text := lower (a.title ++ ' ' :: a.description ++ ' ' :: a.content)
  let base := topics.foldl (topicScoreStep text) ((0 : ℚ), (0 : ℕ))
  let score := if 0 < base.2 then base.1 / (base.2 : ℚ) else base.1
  let score := topics.foldl (titleBoostStep (lower a.title)) score
  if now - a.published_at.asUTC < 43200 then min (score + 1/10) 1 else score

/-- `ContentFilter._has_good_content_quality` (filters.py:127-147). -/
def has_good_content_quality (a : Article) : Bool :=
  if (strip a.title).length < 10 then false
  else if (strip a.description).length < 20 then false
  else
    let full_text := lower (a.title ++ ' ' :: a.description)
    (["[removed]".data, "[deleted]".data, "sign up".data, "subscribe now".data,
      "paywall".data]).all (fun pat => !containsSub full_text pat)

/-- Result of the `filter_articles` loop: the filter's final dedup state, the
accepted articles in acceptance order, and the post-call states of all
processed articles in input order (Python mutates the shared `Article`
objects; `processed` records that frame effect). -/
structure FilterResult where
  state : ContentFilter
  accepted : List Article
  processed : List Article
deriving DecidableEq

/-- The per-article loop of `ContentFilter.filter_articles` (filters.py:23-41):
skip duplicates untouched; otherwise overwrite the relevance score, then drop
low-scoring or low-quality articles; accepted articles extend the seen sets. -/
def filterLoop (topics : List PyStr) (now : ℤ) :
    ContentFilter → List Article → FilterResult
  | cf, [] => ⟨cf, [], []⟩
  | cf, a :: rest =>
    if is_duplicate cf a then
      let r := filterLoop topics now cf rest
      ⟨r.state, r.accepted, a :: r.processed⟩
    else
      let a' := { a with relevance_score := calculate_relevance a topics now }
      if a'.relevance_score < cf.min_relevance_score then
        let r := filterLoop topics now cf rest
        ⟨r.state, r.accepted, a' :: r.processed⟩
      else if !has_good_content_quality a' then
        let r := filterLoop topics now cf rest
        ⟨r.state, r.accepted, a' :: r.processed⟩
      else
        let cf' := { cf with
          seen_urls := a'.url :: cf.seen_urls,
          seen_titles := strip (lower a'.title) :: cf.seen_titles }
        let r := filterLoop topics now cf' rest
        ⟨r.state, a' :: r.accepted, a' :: r.processed⟩

/-- Sort key of the survivors (filters.py:44-49): `(relevance_score,
published_at)` with naive timestamps normalized to UTC. -/
def sortKey (a : Article) : ℚ × ℤ := (a.relevance_score, a.published_at.asUTC)

/-- Lexicographic order on `(score, instant)` pairs — Python tuple comparison. -/
def lexLe (p q : ℚ × ℤ) : Prop := p.1 < q.1 ∨ (p.1 = q.1 ∧ p.2 ≤ q.2)

instance : DecidableRel lexLe := fun p q => by
  unfold lexLe; exact inferInstance

/-- Descending order used by `filtered.sort(key=sort_key, reverse=True)`:
`a` may come before `b` iff `b`'s key is lexicographically at most `a`'s.
`List.insertionSort` with this relation is a stable descending sort, matching
Python's stable `list.sort(..., reverse=True)`. -/
def articleOrder (a b : Article) : Prop := lexLe (sortKey b) (sortKey a)

instance : DecidableRel articleOrder := fun a b => by
  unfold articleOrder; exact inferInstance

instance : IsTotal Article articleOrder := by
  constructor
  intro a b
  rcases lt_trichotomy (sortKey a).1 (sortKey b).1 with h | h | h
  · exact Or.inr (Or.inl h)
  · rcases le_total (sortKey a).2 (sortKey b).2 with h2 | h2
    · exact Or.inr (Or.inr ⟨h, h2⟩)
    · exact Or.inl (Or.inr ⟨h.symm, h2⟩)
  · exact Or.inl (Or.inl h)

instance : IsTrans Article articleOrder := by
  constructor
  intro a b c hab hbc
  rcases hab with h1 | ⟨e1, l1⟩ <;> rcases hbc with h2 | ⟨e2, l2⟩
  · exact Or.inl (h2.trans h1)
  · exact Or.inl (e2 ▸ h1)
  · exact Or.inl (e1 ▸ h2)
  · exact Or.inr ⟨e2.trans e1, l2.trans l1⟩

/-- `ContentFilter.filter_articles` (filters.py:17-53): run the loop, then
sort survivors descending by `(relevance, recency)`.  Returns the updated
filter state (Python mutates `self`) together with the output list. -/
def filter_articles (cf : ContentFilter) (articles : List Article)
    (topics : List PyStr) (now : ℤ) : ContentFilter × List Article :=
  let r := filterLoop topics now cf articles
  (r.state, r.accepted.insertionSort articleOrder)

/-- Pieces of `urllib.parse.urlparse` used by the code.  Modelled for
http(s)-style URLs: with a `"://"` present, `netloc` is everything up to the
next `/` and `path` the remainder; without one the whole string is the path. -/
structure UrlParts where
  netloc : PyStr
  path : PyStr
deriving DecidableEq

/-- Split off the part after the first `"://"`, if any. -/
def afterScheme : PyStr → Option PyStr
  | [] => none
  | c :: t =>
    if "://".data.isPrefixOf (c :: t) then some (List.drop 2 t)
    else afterScheme t

/-- Model of `urllib.parse.urlparse` restricted to the fields the code reads. -/
def urlparse (u : PyStr) : UrlParts :=
  match afterScheme u with
  | none => ⟨[], u⟩
  | some rest => ⟨rest.takeWhile (· ≠ '/'), rest.dropWhile (· ≠ '/')⟩

/-- `ContentFilter._same_story_different_source` (filters.py:199-225):
different hosts whose paths share at least two distinct segments longer than
3 characters. -/
def same_story_different_source (u1 u2 : PyStr) : Bool :=
  let p1 := urlparse u1
  let p2 := urlparse u2
  if p1.netloc ≠ p2.netloc then
    let parts1 := (splitOnChar '/' p1.path).filter (fun part => 3 < part.length)
    let parts2 := (splitOnChar '/' p2.path).filter (fun part => 3 < part.length)
    decide (2 ≤ ((parts1.filter (fun x => parts2.contains x)).dedup).length)
  else false

/-- `ContentFilter._are_similar_articles` (filters.py:177-197). -/
def are_similar_articles (a1 a2 : Article) : Bool :=
  if (17 : ℚ)/20 < similarity (lower a1.title) (lower a2.title) then true
  else if a1.description ≠ [] ∧ a2.description ≠ [] ∧
      (4 : ℚ)/5 < similarity (lower a1.description) (lower a2.description) then true
  else same_story_different_source a1.url a2.url

/-- One iteration of the `deduplicate_by_content` outer loop
(filters.py:156-173): scan the retained list for the first similar article;
a higher-scoring incomer replaces it (appended at the end), otherwise the
incomer is dropped; without a similar match the incomer is appended. -/
def scanStep (unique : List Article) (current : Article) : List Article :=
  match unique.find? (fun existing => are_similar_articles current existing) with
  | some existing =>
    if existing.relevance_score < current.relevance_score then
      (unique.erase existing) ++ [current]
    else unique
  | none => unique ++ [current]

/-- `ContentFilter.deduplicate_by_content` (filters.py:149-175). -/
def deduplicate_by_content (articles : List Article) : List Article :=
  if articles.length ≤ 1 then articles
  else articles.foldl scanStep []

/-- `get_sort_key` inside `NewsFetcher._limit_articles_per_source`
(fetchers.py:471-477): publication instant with naive timestamps read as UTC. -/
def get_sort_key (a : Article) : ℤ := a.published_at.asUTC

/-- Descending recency order used by `sorted(articles, key=get_sort_key,
reverse=True)` (stable, like Python's sort). -/
def recencyOrder (a b : Article) : Prop := get_sort_key b ≤ get_sort_key a

instance : DecidableRel recencyOrder := fun a b => by
  unfold recencyOrder; exact inferInstance

instance : IsTotal Article recencyOrder :=
  ⟨fun a b => (le_total (get_sort_key b) (get_sort_key a)).imp id id⟩

instance : IsTrans Article recencyOrder :=
  ⟨fun _ _ _ hab hbc => le_trans hbc hab⟩

/-- The counting loop of `_limit_articles_per_source` (fetchers.py:481-485):
walk the recency-sorted list, keeping an article only while its source has
been kept fewer than `cap` times. -/
def limitLoop (cap : ℕ) : List Article → (PyStr → ℕ) → List Article
  | [], _ => []
  | a :: rest, counts =>
    let c := counts a.source
    if c < cap then
      a :: limitLoop cap rest (fun s => if s = a.source then c + 1 else counts s)
    else limitLoop cap rest counts

/-- `NewsFetcher._limit_articles_per_source` (fetchers.py:464-491). -/
def limit_articles_per_source (articles : List Article) (cap : ℕ := 3) :
    List Article :=
  limitLoop cap (articles.insertionSort recencyOrder) (fun _ => 0)

/-- `ArticleSummary` (src/src/ai/summarizer.py:14-38).  `created_at` is the
construction instant (`datetime.now()`), threaded in as a parameter. -/
structure ArticleSummary where
  article : Article
  brief_summary : PyStr
  key_points : List PyStr
  category : PyStr := "General".data
  importance_score : ℚ := 1/2
  created_at : ℤ
deriving DecidableEq

/-- The two labelled sections the free-text parsers track in
`current_section`. -/
inductive Sect where
  | summary
  | key_points
deriving DecidableEq

/-- Accumulator of the line-scanning loops in `_parse_openai_response` /
`_parse_gemini_response`. -/
structure ParseState where
  summary : PyStr
  key_points : List PyStr
  category : PyStr
  importance_score : ℚ
  current_section : Option Sect
deriving DecidableEq

/-- One iteration of the `_parse_openai_response` line loop
(summarizer.py:122-147).  Note the `IMPORTANCE:` branch keeps whatever
numeric value `float` parses — there is no clamping here; only a
`ValueError` (`pyFloat? = none`) falls back to `0.5`. -/
def openaiLineStep (st : ParseState) (rawLine : PyStr) : ParseState :=
  let line := strip rawLine
  if pyStartsWith line "SUMMARY:".data then
    { st with summary := strip (replaceAll line "SUMMARY:".data []),
              current_section := some Sect.summary }
  else if pyStartsWith line "KEY_POINTS:".data then
    let points_text := strip (replaceAll line "KEY_POINTS:".data [])
    { st with current_section := some Sect.key_points,
              key_points :=
                if points_text ≠ [] then st.key_points ++ [points_text]
                else st.key_points }
  else if pyStartsWith line "CATEGORY:".data then
    { st with category := strip (replaceAll line "CATEGORY:".data []) }
  else if pyStartsWith line "IMPORTANCE:".data then
    { st with importance_score :=
        match pyFloat? (strip (replaceAll line "IMPORTANCE:".data [])) with
        | some v => v
        | none => 1/2 }
  else if pyStartsWith line ['•'] || pyStartsWith line ['-'] ||
      pyStartsWith line ['*'] then
    if st.current_section = some Sect.key_points then
      { st with key_points :=
          st.key_points ++ [strip (lstripAny line ['•', '-', '*', ' '])] }
    else st
  else if st.current_section = some Sect.key_points ∧ line ≠ [] then
    { st with key_points := st.key_points ++ [line] }
  else st

/-- One iteration of the `_parse_gemini_response` line loop
(summarizer.py:306-337).  Differences from the OpenAI loop: the parsed
importance is clamped into `[0,1]` (line 324), bullet lines are also
collected before any section marker was seen (line 330), and the trailing
free-line branch excludes `CATEGORY:`/`IMPORTANCE:` prefixes (dead guards,
kept faithfully). -/
def geminiLineStep (st : ParseState) (rawLine : PyStr) : ParseState :=
  let line := strip rawLine
  if pyStartsWith line "SUMMARY:".data then
    { st with summary := strip (replaceAll line "SUMMARY:".data []),
              current_section := some Sect.summary }
  else if pyStartsWith line "KEY_POINTS:".data then
    let points_text := strip (replaceAll line "KEY_POINTS:".data [])
    { st with current_section := some Sect.key_points,
              key_points :=
                if points_text ≠ [] then st.key_points ++ [points_text]
                else st.key_points }
  else if pyStartsWith line "CATEGORY:".data then
    { st with category := strip (replaceAll line "CATEGORY:".data []) }
  else if pyStartsWith line "IMPORTANCE:".data then
    { st with importance_score :=
        match pyFloat? (strip (replaceAll line "IMPORTANCE:".data [])) with
        | some v => max 0 (min 1 v)
        | none => 1/2 }
  else if pyStartsWith line ['•'] || pyStartsWith line ['-'] ||
      pyStartsWith line ['*'] then
    if st.current_section = some Sect.key_points ∨ st.current_section = none then
      { st with key_points :=
          st.key_points ++ [strip (lstripAny line ['•', '-', '*', ' '])] }
    else st
  else if st.current_section = some Sect.key_points ∧ line ≠ [] ∧
      ¬ pyStartsWith line "CATEGORY:".data ∧
      ¬ pyStartsWith line "IMPORTANCE:".data then
    { st with key_points := st.key_points ++ [line] }
  else st

/-- Shared tail of both parsers (summarizer.py:149-161 / 339-351): a missing
summary is derived from the (possibly truncated) description, missing key
points from source and publication date. -/
def defaultedSummary (a : Article) (s : PyStr) : PyStr :=
  if s = [] then
    if 200 < a.description.length then a.description.take 200 ++ "...".data
    else a.description
  else s

/-- Default key points when the parsed list is empty. -/
def defaultedKeyPoints (a : Article) (pts : List PyStr) : List PyStr :=
  if pts = [] then
    ["Source: ".data ++ a.source,
     "Published: ".data ++ strftimeDate a.published_at.wall]
  else pts

/-- `OpenAISummarizer._parse_openai_response` (summarizer.py:108-169), also
used verbatim by `AnthropicSummarizer._parse_anthropic_response` for its
intended parsing. -/
def parse_openai_response (a : Article) (response_text : PyStr) (now : ℤ) :
    ArticleSummary :=
  let st := (splitOnChar '\n' (strip response_text)).foldl openaiLineStep
    ⟨[], [], "General".data, 1/2, none⟩
  { article := a
    brief_summary := defaultedSummary a st.summary
    key_points := defaultedKeyPoints a st.key_points
    category := st.category
    importance_score := st.importance_score
    created_at := now }

/-- `GeminiSummarizer._parse_gemini_response` (summarizer.py:292-359). -/
def parse_gemini_response (a : Article) (response_text : PyStr) (now : ℤ) :
    ArticleSummary :=
  let st := (splitOnChar '\n' (strip response_text)).foldl geminiLineStep
    ⟨[], [], "General".data, 1/2, none⟩
  { article := a
    brief_summary := defaultedSummary a st.summary
    key_points := defaultedKeyPoints a st.key_points
    category := st.category
    importance_score := st.importance_score
    created_at := now }

/-- `_simple_categorize` (summarizer.py:386-439, duplicated verbatim as
`NewsSummarizer._simple_categorize` at 554-607): first category, in dict
insertion order, one of whose keywords occurs in title+description. -/
def simple_categorize (a : Article) : PyStr :=
  let text := lower (a.title ++ ' ' :: a.description)
  let categories : List (PyStr × List PyStr) :=
    [("Technology".data,
      ["tech".data, "ai".data, "software".data, "digital".data, "computer".data,
       "internet".data, "app".data]),
     ("Science".data,
      ["research".data, "study".data, "scientist".data, "discovery".data,
       "climate".data, "space".data]),
     ("Business".data,
      ["company".data, "business".data, "market".data, "economy".data,
       "financial".data, "stock".data]),
     ("Health".data,
      ["health".data, "medical".data, "hospital".data, "disease".data,
       "treatment".data, "vaccine".data]),
     ("Politics".data,
      ["government".data, "political".data, "election".data, "president".data,
       "congress".data, "policy".data]),
     ("Sports".data,
      ["sport".data, "game".data, "team".data, "player".data,
       "championship".data, "olympic".data])]
  match categories.find? (fun p => p.2.any (fun kw => containsSub text kw)) with
  | some p => p.1
  | none => "General".data

/-- The deterministic fallback summary (`GeminiSummarizer._fallback_summary`,
summarizer.py:361-384, duplicated verbatim as
`NewsSummarizer._fallback_summary` at 527-552): truncated description,
key points from source and date, importance = the article's relevance
score, category from the fixed keyword lookup. -/
def fallback_summary (a : Article) (now : ℤ) : ArticleSummary :=
  { article := a
    brief_summary :=
      if 200 < a.description.length then a.description.take 200 ++ "...".data
      else a.description
    key_points :=
      ["Source: ".data ++ a.source,
       "Published: ".data ++ strftimeMinute a.published_at.wall,
       "Full article available at source link".data]
    category := simple_categorize a
    importance_score := a.relevance_score
    created_at := now }

/-- Configured backends of `NewsSummarizer` (summarizer.py:442-459).  Each
configured backend is the outcome of its network call per article: the
response text on success, or the error on an API failure.  `none` models a
missing API key. -/
structure Backends where
  gemini : Option (Article → Except PyStr PyStr)
  openai : Option (Article → Except PyStr PyStr)
  anthropic : Option (Article → Except PyStr PyStr)

/-- `GeminiSummarizer.summarize_article` (summarizer.py:243-290).  Its
`except Exception` handler returns `self._fallback_summary(article)` — which
`GeminiSummarizer` defines — so the method never raises: an API failure
yields the deterministic fallback summary as a normal return value. -/
def gemini_summarize_article (call : Article → Except PyStr PyStr)
    (a : Article) (now : ℤ) : Except PyStr ArticleSummary :=
  match call a with
  | Except.ok text => Except.ok (parse_gemini_response a text now)
  | Except.error _ => Except.ok (fallback_summary a now)

/-- `OpenAISummarizer.summarize_article` (summarizer.py:46-106).  On an API
failure its handler evaluates `self._fallback_summary(article)`, but
`OpenAISummarizer` defines no `_fallback_summary` attribute, so the handler
itself raises `AttributeError`, which escapes the method. -/
def openai_summarize_article (call : Article → Except PyStr PyStr)
    (a : Article) (now : ℤ) : Except PyStr ArticleSummary :=
  match call a with
  | Except.ok text => Except.ok (parse_openai_response a text now)
  | Except.error _ => Except.error "AttributeError".data

/-- `AnthropicSummarizer.summarize_article` (summarizer.py:177-235).  On a
successful call, `_parse_anthropic_response` evaluates
`self._parse_openai_response`, an attribute `AnthropicSummarizer` does not
have; the resulting `AttributeError` is caught by the handler, whose own
`self._fallback_summary(article)` is also missing — so the method raises
`AttributeError` on every path. -/
def anthropic_summarize_article (call : Article → Except PyStr PyStr)
    (a : Article) (now : ℤ) : Except PyStr ArticleSummary :=
  match call a with
  | Except.ok _ => Except.error "AttributeError".data
  | Except.error _ => Except.error "AttributeError".data

/-- Anthropic stage of the `summarize_single` chain (summarizer.py:498-508):
try Anthropic when configured, fall back to
`NewsSummarizer._fallback_summary` when it raises or is absent. -/
def anthropicStage (b : Backends) (a : Article) (now : ℤ) : ArticleSummary :=
  match b.anthropic with
  | some call =>
    match anthropic_summarize_article call a now with
    | Except.ok s => s
    | Except.error _ => fallback_summary a now
  | none => fallback_summary a now

/-- OpenAI stage of the `summarize_single` chain (summarizer.py:487-496). -/
def openaiStage (b : Backends) (a : Article) (now : ℤ) : ArticleSummary :=
  match b.openai with
  | some call =>
    match openai_summarize_article call a now with
    | Except.ok s => s
    | Except.error _ => anthropicStage b a now
  | none => anthropicStage b a now

/-- `summarize_single` inside `NewsSummarizer.summarize_articles`
(summarizer.py:474-508): try Gemini, on a raised exception try OpenAI, then
Anthropic, then the deterministic fallback.  Each stage's raise-or-return
behaviour is carried by the `Except` results of the backend methods. -/
def summarize_single (b : Backends) (a : Article) (now : ℤ) : ArticleSummary :=
  match b.gemini with
  | some call =>
    match gemini_summarize_article call a now with
    | Except.ok s => s
    | Except.error _ => openaiStage b a now
  | none => openaiStage b a now

/-- Descending importance order used for the final sorts
(summarizer.py:523, 622); `List.insertionSort` with it is stable, like
Python's sort. -/
def impOrder (x y : ArticleSummary) : Prop :=
  y.importance_score ≤ x.importance_score

instance : DecidableRel impOrder := fun x y => by
  unfold impOrder; exact inferInstance

instance : IsTotal ArticleSummary impOrder :=
  ⟨fun x y => (le_total y.importance_score x.importance_score).imp id id⟩

instance : IsTrans ArticleSummary impOrder :=
  ⟨fun _ _ _ hab hbc => le_trans hbc hab⟩

/-- `NewsSummarizer.summarize_articles` (summarizer.py:461-525).  The
semaphore-bounded `asyncio.gather` preserves task order and
`summarize_single` is total, so the batch is a map; the `isinstance`
filtering of exceptions keeps everything; the result is sorted descending by
importance. -/
def summarize_articles (b : Backends) (articles : List Article) (now : ℤ) :
    List ArticleSummary :=
  if articles.isEmpty then []
  else
    (articles.map (fun a => summarize_single b a now)).insertionSort impOrder

/-- One step of `group_summaries_by_category`'s dict building
(summarizer.py:613-618): append to the bucket of the summary's category,
creating the bucket at the end on first sight (Python dicts preserve
insertion order). -/
def addToGroup : List (PyStr × List ArticleSummary) → ArticleSummary →
    List (PyStr × List ArticleSummary)
  | [], s => [(s.category, [s])]
  | (c, ls) :: rest, s =>
    if c = s.category then (c, ls ++ [s]) :: rest
    else (c, ls) :: addToGroup rest s

/-- `NewsSummarizer.group_summaries_by_category` (summarizer.py:609-624). -/
def group_summaries_by_category (summaries : List ArticleSummary) :
    List (PyStr × List ArticleSummary) :=
  (summaries.foldl addToGroup []).map
    (fun p => (p.1, p.2.insertionSort impOrder))

/-- Dict lookup on the association-list model of the grouping dict (first
entry with the given key, `[]` when absent); used to state the grouping
lemmas. -/
def getBucket (c : PyStr) (acc : List (PyStr × List ArticleSummary)) :
    List ArticleSummary :=
  match acc.find? (fun q => decide (q.1 = c)) with
  | some q => q.2
  | none => []

/-! ### Concrete fixtures used by counterexamples and witnesses -/

/-- A minimal article; the free-text parsers' importance handling does not
depend on the article. -/
def probeArticle : Article :=
  ⟨"t".data, "d".data, "u".data, "s".data, ⟨0, none⟩, [], 0⟩

/-- An article that is maximally relevant to `aiTopics` at instant 1000. -/
def aiArticle : Article :=
  ⟨"artificial intelligence wins".data,
   "artificial intelligence research report".data,
   "http://a.com/x".data, "TechCrunch".data, ⟨1000, none⟩, [], 0⟩

/-- Topic list for `aiArticle`. -/
def aiTopics : List PyStr := ["artificial intelligence".data]

/-- A second article (relevance 3/10) for the summarizer scenarios. -/
def bizArticle : Article :=
  ⟨"quarterly market outlook".data, "the market shifted".data,
   "http://b.com/y".data, "Reuters".data, ⟨2000, none⟩, [], 3/10⟩

/-- Response text OpenAI would return in the chain scenario. -/
def openaiDemoText : PyStr := "SUMMARY: fresh\nIMPORTANCE: 0.9".data

/-- Backends for the chain scenario: Gemini's API call fails, OpenAI's
succeeds, Anthropic's succeeds. -/
def chainBackends : Backends :=
  ⟨some (fun _ => Except.error "APIError".data),
   some (fun _ => Except.ok openaiDemoText),
   some (fun _ => Except.ok "IMPORTANCE: 0.8".data)⟩

/-- Backends whose Gemini and OpenAI API calls all fail (Anthropic's network
succeeds, but its method raises on every path). -/
def failingBackends : Backends :=
  ⟨some (fun _ => Except.error "APIError".data),
   some (fun _ => Except.error "APIError".data),
   some (fun _ => Except.ok "IMPORTANCE: 0.8".data)⟩

/-- Content-dedup scenario, first retained article (relevance 1/2). -/
def dupA : Article :=
  ⟨"aaaa".data, [], "http://y.com/alpha/bravo".data, "s1".data, ⟨0, none⟩, [], 1/2⟩

/-- Content-dedup scenario, second retained article (relevance 3/5); same
story as `dupC` (shared path segments `charlie`, `delta`). -/
def dupB : Article :=
  ⟨"bbbb".data, [], "http://z.com/charlie/delta".data, "s2".data, ⟨0, none⟩, [], 3/5⟩

/-- Content-dedup scenario, incoming article (relevance 9/10); same story as
both `dupA` and `dupB`. -/
def dupC : Article :=
  ⟨"cccc".data, [], "http://x.com/alpha/bravo/charlie/delta".data, "s3".data,
   ⟨0, none⟩, [], 9/10⟩

/-- An incoming article tying `dupA`'s relevance and similar to it (shared
path segments), used to witness the loser-is-discarded behaviour. -/
def dupLoser : Article :=
  ⟨"eeee".data, [], "http://q.com/alpha/bravo".data, "s4".data, ⟨0, none⟩, [], 1/2⟩

/-! ### Parser importance bounds (C1) -/

/-- The Gemini line step keeps the running importance inside `[0,1]`. -/
theorem geminiLineStep_importance (st : ParseState) (l : PyStr)
    (h0 : 0 ≤ st.importance_score) (h1 : st.importance_score ≤ 1) :
    0 ≤ (geminiLineStep st l).importance_score ∧
      (geminiLineStep st l).importance_score ≤ 1 := by
  simp only [geminiLineStep]
  split_ifs <;> try exact ⟨h0, h1⟩
  all_goals split
  all_goals try exact ⟨h0, h1⟩
  all_goals try exact ⟨le_max_left _ _, max_le (by norm_num) (min_le_left _ _)⟩
  all_goals exact ⟨by norm_num, by norm_num⟩

/-- The importance accumulated by the Gemini line loop stays in `[0,1]`. -/
theorem gemini_fold_importance (lines : List PyStr) :
    ∀ st : ParseState, 0 ≤ st.importance_score → st.importance_score ≤ 1 →
      0 ≤ (lines.foldl geminiLineStep st).importance_score ∧
        (lines.foldl geminiLineStep st).importance_score ≤ 1 := by
  induction lines with
  | nil => exact fun st h0 h1 => ⟨h0, h1⟩
  | cons l rest ih =>
    intro st h0 h1
    have h := geminiLineStep_importance st l h0 h1
    exact ih _ h.1 h.2

/-- C1 counterexample: the claim says every backend parser clamps
`IMPORTANCE: 5.0` to `1.0`, but the OpenAI parser returns the unclamped
value `5.0`, outside `[0.0, 1.0]`. -/
theorem openai_importance_unclamped_cx :
    (parse_openai_response probeArticle "IMPORTANCE: 5.0".data 0).importance_score
      = 5 ∧
    ¬ ((parse_openai_response probeArticle "IMPORTANCE: 5.0".data 0).importance_score
      ≤ 1) := by
  exact ⟨by decide, by decide⟩

/-- C1 (amended): the Gemini parser keeps the importance score in
`[0.0, 1.0]` for every response text (`IMPORTANCE: 5.0` clamps to `1.0`,
`IMPORTANCE: abc` defaults to `0.5`); the OpenAI/Anthropic parser defaults
non-numeric text to `0.5` but passes an out-of-range numeric value such as
`5.0` through unclamped. -/
theorem importance_clamped_gemini_only :
    (∀ (a : Article) (text : PyStr) (now : ℤ),
      0 ≤ (parse_gemini_response a text now).importance_score ∧
        (parse_gemini_response a text now).importance_score ≤ 1) ∧
    (∀ (a : Article) (now : ℤ),
      (parse_gemini_response a "IMPORTANCE: 5.0".data now).importance_score = 1 ∧
      (parse_gemini_response a "IMPORTANCE: abc".data now).importance_score = 1/2 ∧
      (parse_openai_response a "IMPORTANCE: abc".data now).importance_score = 1/2 ∧
      (parse_openai_response a "IMPORTANCE: 5.0".data now).importance_score = 5) := by
  constructor
  · intro a text now
    exact gemini_fold_importance (splitOnChar '\n' (strip text))
      ⟨[], [], "General".data, 1/2, none⟩ (by norm_num) (by norm_num)
  · exact fun a now => ⟨rfl, rfl, rfl, rfl⟩

/-! ### Backend chain (C2) and filter state scoping (C3) -/

/-- C2 (code bug): with all three backends configured and Gemini's API call
failing, `summarize_single` returns the deterministic fallback summary
directly — OpenAI is never consulted even though its call would succeed with
an importance-0.9 summary.  (`GeminiSummarizer.summarize_article` catches its
own failure and returns `self._fallback_summary(article)`, so the
orchestrator's `except` branch that would try OpenAI never fires.) -/
theorem gemini_failure_bypasses_chain :
    summarize_single chainBackends bizArticle 0 = fallback_summary bizArticle 0 ∧
    (∃ call, chainBackends.openai = some call ∧
      call bizArticle = Except.ok openaiDemoText) ∧
    (parse_openai_response bizArticle openaiDemoText 0).importance_score = 9/10 ∧
    (summarize_single chainBackends bizArticle 0).importance_score = 3/10 := by
  exact ⟨rfl, ⟨_, rfl, rfl⟩, by decide, by decide⟩

/-- C3 (code bug): the dedup state lives on the `ContentFilter` instance, not
on the invocation.  A fresh filter accepts `aiArticle`; calling
`filter_articles` again on the *same* instance with the very same input list
returns `[]`, because the first call's `seen_urls` entry rejects the article
as a duplicate. -/
theorem filter_state_persists_across_calls :
    (filter_articles ⟨3/5, [], []⟩ [aiArticle] aiTopics 1000).2 =
      [{ aiArticle with relevance_score := 1 }] ∧
    (filter_articles ((filter_articles ⟨3/5, [], []⟩ [aiArticle] aiTopics 1000).1)
        [aiArticle] aiTopics 1000).2 = [] := by
  exact ⟨by decide, by decide⟩

/-! ### Content-level dedup (C8) -/

/-- C8 counterexample: `dupB` and `dupC` are judged the same story and
`dupB` has the lower relevance score, yet the output of
`deduplicate_by_content` retains both (the scan stopped at `dupC`'s first
similar match `dupA` and never compared `dupC` with `dupB`). -/
theorem dedup_keeps_lower_scored_same_story_cx :
    deduplicate_by_content [dupA, dupB, dupC] = [dupB, dupC] ∧
    are_similar_articles dupB dupC = true ∧
    are_similar_articles dupC dupB = true ∧
    dupB.relevance_score < dupC.relevance_score ∧
    dupB ∈ deduplicate_by_content [dupA, dupB, dupC] ∧
    dupC ∈ deduplicate_by_content [dupA, dupB, dupC] := by
  exact ⟨by decide, by decide, by decide, by decide, by decide, by decide⟩

/-! ### Relevance score bounds (C7) -/

/-- The per-word match count never becomes negative. -/
theorem wordFold_nonneg (text : PyStr) (ws : List PyStr) :
    ∀ m : ℚ, 0 ≤ m → 0 ≤ ws.foldl (wordMatchStep text) m := by
  induction ws with
  | nil => exact fun m h => h
  | cons w rest ih =>
    intro m h
    apply ih
    unfold wordMatchStep
    dsimp only
    split_ifs <;> linarith

/-- Along the topic fold, the accumulated score is nonnegative and bounded by
the number of counted topics. -/
theorem topicsFold_bounds (text : PyStr) (topics : List PyStr) :
    ∀ acc : ℚ × ℕ, 0 ≤ acc.1 → acc.1 ≤ (acc.2 : ℚ) →
      0 ≤ (topics.foldl (topicScoreStep text) acc).1 ∧
        (topics.foldl (topicScoreStep text) acc).1 ≤
          (((topics.foldl (topicScoreStep text) acc).2 : ℕ) : ℚ) := by
  induction topics with
  | nil => exact fun acc h0 h1 => ⟨h0, h1⟩
  | cons topic rest ih =>
    intro acc h0 h1
    apply ih
    all_goals
      unfold topicScoreStep
      dsimp only
      split_ifs
    · have hm : (0 : ℚ) ≤ (splitWs (lower topic)).foldl (wordMatchStep text) 0 :=
        wordFold_nonneg text _ 0 le_rfl
      have : (0 : ℚ) ≤ ((splitWs (lower topic)).foldl (wordMatchStep text) 0) /
          (((splitWs (lower topic)).length : ℕ) : ℚ) :=
        div_nonneg hm (by positivity)
      have := le_min this (by norm_num : (0:ℚ) ≤ 1)
      positivity
    · exact h0
    · have hle : min (((splitWs (lower topic)).foldl (wordMatchStep text) 0) /
          (((splitWs (lower topic)).length : ℕ) : ℚ)) 1 ≤ 1 := min_le_right _ _
      push_cast
      push_cast at h1
      linarith
    · exact h1

/-- The title-boost fold keeps the score inside `[0,1]`. -/
theorem titleFold_bounds (title_lower : PyStr) (topics : List PyStr) :
    ∀ s : ℚ, 0 ≤ s → s ≤ 1 →
      0 ≤ topics.foldl (titleBoostStep title_lower) s ∧
        topics.foldl (titleBoostStep title_lower) s ≤ 1 := by
  induction topics with
  | nil => exact fun s h0 h1 => ⟨h0, h1⟩
  | cons topic rest ih =>
    intro s h0 h1
    apply ih
    all_goals
      unfold titleBoostStep
      split_ifs
    · exact le_min (by linarith) (by norm_num)
    · exact h0
    · exact min_le_right _ _
    · exact h1

/-- C7: for every article, topic list and reference instant, the relevance
score computed by the Curation Filter lies in `[0.0, 1.0]`: each per-topic
score is capped at `1.0`, the mean over counted topics stays in `[0,1]`
(and is `0` when no topic contributes), and the `+0.2` title boost and
`+0.1` recency boost are both capped at `1.0`. -/
theorem relevance_score_bounds (a : Article) (topics : List PyStr) (now : ℤ) :
    0 ≤ calculate_relevance a topics now ∧ calculate_relevance a topics now ≤ 1 := by
  unfold calculate_relevance
  have hb := topicsFold_bounds (lower (a.title ++ ' ' :: a.description ++ ' ' :: a.content))
    topics ((0 : ℚ), (0 : ℕ)) le_rfl (by norm_num)
  set base := topics.foldl
    (topicScoreStep (lower (a.title ++ ' ' :: a.description ++ ' ' :: a.content)))
    ((0 : ℚ), (0 : ℕ)) with hbase
  set s0 : ℚ := if 0 < base.2 then base.1 / (base.2 : ℚ) else base.1 with hs0
  have h0 : 0 ≤ s0 ∧ s0 ≤ 1 := by
    rw [hs0]
    split_ifs with hpos
    · refine ⟨div_nonneg hb.1 (by positivity), ?_⟩
      rw [div_le_one (by exact_mod_cast hpos)]
      exact hb.2
    · have hz : base.2 = 0 := Nat.eq_zero_of_not_pos hpos
      have : base.1 ≤ 0 := by
        have := hb.2
        rw [hz] at this
        simpa using this
      exact ⟨hb.1, by linarith⟩
  have h1 := titleFold_bounds (lower a.title) topics s0 h0.1 h0.2
  set s1 := topics.foldl (titleBoostStep (lower a.title)) s0 with hs1
  split_ifs with hrec
  · exact ⟨le_min (by linarith [h1.1]) (by norm_num), min_le_right _ _⟩
  · exact h1

/-! ### Per-source cap (C5) -/

/-- Restricted to any one source, the counting loop keeps exactly the first
`cap - counts s` matching articles of its input. -/
theorem limitLoop_filter (cap : ℕ) (s : PyStr) :
    ∀ (l : List Article) (counts : PyStr → ℕ),
      (limitLoop cap l counts).filter (fun x => decide (x.source = s)) =
        (l.filter (fun x => decide (x.source = s))).take (cap - counts s) := by
  intro l
  induction l with
  | nil => intro counts; simp [limitLoop]
  | cons a rest ih =>
    intro counts
    simp only [limitLoop]
    by_cases hc : counts a.source < cap
    · rw [if_pos hc]
      by_cases hsrc : a.source = s
      · have hpa : (decide (a.source = s)) = true := decide_eq_true hsrc
        rw [List.filter_cons, List.filter_cons, if_pos hpa, if_pos hpa]
        have h1 : cap - counts s = (cap - (counts s + 1)) + 1 := by
          rw [← hsrc]; omega
        rw [h1, List.take_succ_cons, ih]
        have h2 : (if s = a.source then counts a.source + 1 else counts s)
            = counts s + 1 := by
          rw [if_pos hsrc.symm, hsrc]
        simp only [h2]
      · have hpa : (decide (a.source = s)) = false := decide_eq_false hsrc
        rw [List.filter_cons, List.filter_cons, if_neg (by simp [hpa]),
          if_neg (by simp [hpa]), ih]
        have h2 : (if s = a.source then counts a.source + 1 else counts s)
            = counts s := by
          rw [if_neg (fun h => hsrc h.symm)]
        simp only [h2]
    · rw [if_neg hc, ih]
      by_cases hsrc : a.source = s
      · have hz : cap - counts s = 0 := by rw [← hsrc]; omega
        simp [hz]
      · have hpa : (decide (a.source = s)) = false := decide_eq_false hsrc
        rw [List.filter_cons, if_neg (by simp [hpa])]

/-- The counting loop returns a sublist of its input. -/
theorem limitLoop_sublist (cap : ℕ) :
    ∀ (l : List Article) (counts : PyStr → ℕ),
      (limitLoop cap l counts).Sublist l := by
  intro l
  induction l with
  | nil => intro counts; simp [limitLoop]
  | cons a rest ih =>
    intro counts
    simp only [limitLoop]
    by_cases hc : counts a.source < cap
    · rw [if_pos hc]
      exact (ih _).cons₂ a
    · rw [if_neg hc]
      exact (ih _).cons a

/-- C5: with cap 3, no source appears more than 3 times in the aggregator's
per-source-limited output; per source, the retained articles are exactly the
first 3 of the recency-sorted input restricted to that source (i.e. the 3
most recent, naive timestamps read as UTC, in descending publication order,
earlier-input articles first among equal instants); the output is in
descending publication order; and every non-retained article of a source is
no more recent than every retained one of that source. -/
theorem per_source_cap (articles : List Article) (s : PyStr) :
    ((limit_articles_per_source articles 3).countP (fun x => decide (x.source = s)) ≤ 3) ∧
    ((limit_articles_per_source articles 3).filter (fun x => decide (x.source = s)) =
      ((articles.insertionSort recencyOrder).filter (fun x => decide (x.source = s))).take 3) ∧
    (articles.insertionSort recencyOrder).Perm articles ∧
    List.Sorted recencyOrder (articles.insertionSort recencyOrder) ∧
    List.Sorted recencyOrder (limit_articles_per_source articles 3) ∧
    (∀ x ∈ ((articles.insertionSort recencyOrder).filter (fun a => decide (a.source = s))).drop 3,
      ∀ y ∈ (limit_articles_per_source articles 3).filter (fun a => decide (a.source = s)),
        get_sort_key x ≤ get_sort_key y) := by
  have hchar : (limit_articles_per_source articles 3).filter (fun x => decide (x.source = s)) =
      ((articles.insertionSort recencyOrder).filter (fun x => decide (x.source = s))).take 3 := by
    unfold limit_articles_per_source
    rw [limitLoop_filter]
  have hsorted : List.Sorted recencyOrder (articles.insertionSort recencyOrder) :=
    List.sorted_insertionSort recencyOrder articles
  refine ⟨?_, hchar, List.perm_insertionSort recencyOrder articles, hsorted, ?_, ?_⟩
  · rw [List.countP_eq_length_filter, hchar]
    exact le_trans (List.length_take_le _ _) le_rfl
  · exact List.Pairwise.sublist (limitLoop_sublist 3 _ _) hsorted
  · intro x hx y hy
    have hfs : List.Sorted recencyOrder
        ((articles.insertionSort recencyOrder).filter (fun a => decide (a.source = s))) :=
      List.Pairwise.filter _ hsorted
    have hsplit := List.take_append_drop 3
      ((articles.insertionSort recencyOrder).filter (fun a => decide (a.source = s)))
    have hcross := (List.pairwise_append.mp (by rw [hsplit]; exact hfs)).2.2
    rw [hchar] at hy
    exact hcross y hy x hx

/-! ### Frame effect of the filter loop (C10) -/

/-- The filter loop splits over list concatenation, threading its state. -/
theorem filterLoop_append (topics : List PyStr) (now : ℤ) :
    ∀ (l₁ l₂ : List Article) (cf : ContentFilter),
      filterLoop topics now cf (l₁ ++ l₂) =
        ⟨(filterLoop topics now (filterLoop topics now cf l₁).state l₂).state,
         (filterLoop topics now cf l₁).accepted ++
           (filterLoop topics now (filterLoop topics now cf l₁).state l₂).accepted,
         (filterLoop topics now cf l₁).processed ++
           (filterLoop topics now (filterLoop topics now cf l₁).state l₂).processed⟩ := by
  intro l₁
  induction l₁ with
  | nil => intro l₂ cf; simp [filterLoop]
  | cons a rest ih =>
    intro l₂ cf
    simp only [List.cons_append, filterLoop]
    split_ifs with h1 h2 h3 <;> simp [ih]

/-- Head of the processed (post-mutation) list after one loop step: a
duplicate passes through untouched, anything else has its relevance score
overwritten — whether or not it is later rejected. -/
theorem filterLoop_cons_processed (topics : List PyStr) (now : ℤ)
    (cf : ContentFilter) (a : Article) (l : List Article) :
    (filterLoop topics now cf (a :: l)).processed =
      (if is_duplicate cf a then a
       else { a with relevance_score := calculate_relevance a topics now }) ::
      (filterLoop topics now (filterLoop topics now cf [a]).state l).processed := by
  by_cases hd : is_duplicate cf a = true
  · simp [filterLoop, hd]
  · simp only [filterLoop, hd]
    split_ifs <;> simp_all [filterLoop]

/-- C10: `filter_articles` overwrites the relevance score of every processed
article that is not rejected as a duplicate — including articles it then
rejects for a low score or poor quality — while an article rejected as a
duplicate keeps its prior relevance score: the post-call state of the
article at any position is `a` itself when the dedup state accumulated over
the preceding articles flags it, and `a` with the recomputed score
otherwise. -/
theorem filter_overwrites_scores (cf : ContentFilter) (topics : List PyStr)
    (now : ℤ) (l₁ l₂ : List Article) (a : Article) :
    (filterLoop topics now cf (l₁ ++ a :: l₂)).processed =
      (filterLoop topics now cf l₁).processed ++
        (if is_duplicate (filterLoop topics now cf l₁).state a then a
         else { a with relevance_score := calculate_relevance a topics now }) ::
        (filterLoop topics now
          (filterLoop topics now cf (l₁ ++ [a])).state l₂).processed := by
  rw [filterLoop_append topics now l₁ (a :: l₂) cf]
  rw [filterLoop_append topics now l₁ [a] cf]
  simp only [filterLoop_cons_processed]

/-! ### Fallback guarantee (C4) -/

/-- When the Gemini and OpenAI network calls fail on an article,
`summarize_single` produces the deterministic fallback summary (Anthropic's
attempt raises `AttributeError` on every path, so it needs no hypothesis). -/
theorem summarize_single_fallback (b : Backends) (a : Article) (now : ℤ)
    (hg : ∀ call, b.gemini = some call → ∀ s, call a ≠ Except.ok s)
    (ho : ∀ call, b.openai = some call → ∀ s, call a ≠ Except.ok s) :
    summarize_single b a now = fallback_summary a now := by
  cases hbg : b.gemini with
  | some call =>
    cases hca : call a with
    | ok s => exact absurd hca (hg call hbg s)
    | error e => simp [summarize_single, hbg, gemini_summarize_article, hca]
  | none =>
    cases hbo : b.openai with
    | some call =>
      cases hca : call a with
      | ok s => exact absurd hca (ho call hbo s)
      | error e =>
        cases hba : b.anthropic with
        | some call2 =>
          cases hca2 : call2 a <;>
            simp [summarize_single, hbg, openaiStage, hbo, openai_summarize_article,
              hca, anthropicStage, hba, anthropic_summarize_article, hca2]
        | none =>
          simp [summarize_single, hbg, openaiStage, hbo, openai_summarize_article,
            hca, anthropicStage, hba]
    | none =>
      cases hba : b.anthropic with
      | some call2 =>
        cases hca2 : call2 a <;>
          simp [summarize_single, hbg, openaiStage, hbo, anthropicStage, hba,
            anthropic_summarize_article, hca2]
      | none => simp [summarize_single, hbg, openaiStage, hbo, anthropicStage, hba]

/-- C4: given that no backend summarization attempt succeeds (every
configured backend's API call fails on every input article),
`summarize_articles` still returns exactly one `ArticleSummary` per input
article — the result is the importance-sorted image of the deterministic
fallback over the inputs, a permutation of one fallback summary per article,
with the same length as the input. -/
theorem summarize_all_fallback (b : Backends) (articles : List Article) (now : ℤ)
    (hg : ∀ call, b.gemini = some call → ∀ a ∈ articles, ∀ s, call a ≠ Except.ok s)
    (ho : ∀ call, b.openai = some call → ∀ a ∈ articles, ∀ s, call a ≠ Except.ok s) :
    summarize_articles b articles now =
      (articles.map (fun a => fallback_summary a now)).insertionSort impOrder ∧
    (summarize_articles b articles now).Perm
      (articles.map (fun a => fallback_summary a now)) ∧
    (summarize_articles b articles now).length = articles.length := by
  have hmap : articles.map (fun a => summarize_single b a now)
      = articles.map (fun a => fallback_summary a now) :=
    List.map_congr_left (fun a ha => summarize_single_fallback b a now
      (fun call hc s => hg call hc a ha s) (fun call hc s => ho call hc a ha s))
  have h1 : summarize_articles b articles now =
      (articles.map (fun a => fallback_summary a now)).insertionSort impOrder := by
    unfold summarize_articles
    by_cases he : articles.isEmpty
    · have hnil : articles = [] := List.isEmpty_iff.mp he
      simp [hnil]
    · rw [if_neg he, hmap]
  refine ⟨h1, ?_, ?_⟩
  · rw [h1]; exact List.perm_insertionSort impOrder _
  · rw [h1]
    calc ((articles.map (fun a => fallback_summary a now)).insertionSort impOrder).length
        = (articles.map (fun a => fallback_summary a now)).length :=
          (List.perm_insertionSort impOrder _).length_eq
      _ = articles.length := List.length_map _ _

/-- Witness for C4 at a concrete two-article batch against backends whose
Gemini and OpenAI calls all fail. -/
theorem summarize_all_fallback_witness :
    summarize_articles failingBackends [aiArticle, bizArticle] 0 =
      (([aiArticle, bizArticle]).map (fun a => fallback_summary a 0)).insertionSort impOrder ∧
    (summarize_articles failingBackends [aiArticle, bizArticle] 0).Perm
      (([aiArticle, bizArticle]).map (fun a => fallback_summary a 0)) ∧
    (summarize_articles failingBackends [aiArticle, bizArticle] 0).length = 2 := by
  have h := summarize_all_fallback failingBackends [aiArticle, bizArticle] 0
    (by intro call hcall a ha s
        simp only [failingBackends] at hcall
        injection hcall with hh
        subst hh
        intro hok
        exact Except.noConfusion hok)
    (by intro call hcall a ha s
        simp only [failingBackends] at hcall
        injection hcall with hh
        subst hh
        intro hok
        exact Except.noConfusion hok)
  exact ⟨h.1, h.2.1, h.2.2⟩

/-! ### Categorizer grouping (C9) -/

/-- Bucket lookup steps over the head entry by key comparison. -/
theorem getBucket_cons (c c1 : PyStr) (ls : List ArticleSummary)
    (rest : List (PyStr × List ArticleSummary)) :
    getBucket c ((c1, ls) :: rest) = if c1 = c then ls else getBucket c rest := by
  by_cases h : c1 = c <;> simp [getBucket, List.find?_cons, h]

/-- Inserting a summary appends it to (exactly) the bucket of its own
category, creating that bucket if needed. -/
theorem getBucket_addToGroup (c : PyStr) (s : ArticleSummary) :
    ∀ acc, getBucket c (addToGroup acc s) =
      if s.category = c then getBucket c acc ++ [s] else getBucket c acc := by
  intro acc
  induction acc with
  | nil =>
    by_cases h : s.category = c <;>
      simp [addToGroup, getBucket_cons, getBucket, h]
  | cons p rest ih =>
    obtain ⟨c1, ls⟩ := p
    by_cases h1 : c1 = s.category
    · simp only [addToGroup, if_pos h1]
      by_cases h2 : c1 = c
      · have hsc : s.category = c := h1.symm.trans h2
        rw [getBucket_cons, getBucket_cons, if_pos h2, if_pos h2, if_pos hsc]
      · have hsc : ¬ s.category = c := fun hh => h2 (h1.trans hh)
        rw [getBucket_cons, getBucket_cons, if_neg h2, if_neg h2, if_neg hsc]
    · simp only [addToGroup, if_neg h1]
      by_cases h2 : c1 = c
      · have hsc : ¬ s.category = c := fun hh => h1 (h2.trans hh.symm)
        rw [getBucket_cons, getBucket_cons, if_pos h2, if_pos h2, if_neg hsc]
      · rw [getBucket_cons, getBucket_cons, if_neg h2, if_neg h2, ih]

/-- After folding the whole batch, the bucket of a category holds the
input subsequence of that category, in input order. -/
theorem getBucket_foldl (c : PyStr) (l : List ArticleSummary) :
    ∀ acc, getBucket c (l.foldl addToGroup acc) =
      getBucket c acc ++ l.filter (fun s => decide (s.category = c)) := by
  induction l with
  | nil => intro acc; simp
  | cons s rest ih =>
    intro acc
    simp only [List.foldl_cons, List.filter_cons]
    rw [ih, getBucket_addToGroup]
    by_cases h : s.category = c
    · rw [if_pos h, if_pos (decide_eq_true h), List.append_assoc]
      rfl
    · rw [if_neg h, if_neg (by simp [h])]

/-- Insertion introduces no key other than the summary's category. -/
theorem keys_addToGroup_sub (s : ArticleSummary) :
    ∀ acc (c : PyStr), c ∈ (addToGroup acc s).map Prod.fst →
      c ∈ acc.map Prod.fst ∨ c = s.category := by
  intro acc
  induction acc with
  | nil => intro c hc; simp [addToGroup] at hc; exact Or.inr hc
  | cons p rest ih =>
    obtain ⟨c1, ls⟩ := p
    intro c hc
    by_cases h1 : c1 = s.category
    · simp only [addToGroup, if_pos h1, List.map_cons, List.mem_cons] at hc
      rcases hc with hc | hc
      · exact Or.inl (by simp [hc])
      · exact Or.inl (by simp [hc])
    · simp only [addToGroup, if_neg h1, List.map_cons, List.mem_cons] at hc
      rcases hc with hc | hc
      · exact Or.inl (by simp [hc])
      · rcases ih c hc with h | h
        · exact Or.inl (by simp [h])
        · exact Or.inr h

/-- Insertion preserves distinctness of the dict keys. -/
theorem addToGroup_keys_nodup (s : ArticleSummary) :
    ∀ acc : List (PyStr × List ArticleSummary),
      (acc.map Prod.fst).Nodup → ((addToGroup acc s).map Prod.fst).Nodup := by
  intro acc
  induction acc with
  | nil => intro _; simp [addToGroup]
  | cons p rest ih =>
    obtain ⟨c1, ls⟩ := p
    intro hnd
    simp only [List.map_cons, List.nodup_cons] at hnd
    by_cases h1 : c1 = s.category
    · simp only [addToGroup, if_pos h1, List.map_cons, List.nodup_cons]
      exact hnd
    · simp only [addToGroup, if_neg h1, List.map_cons, List.nodup_cons]
      refine ⟨?_, ih hnd.2⟩
      intro hmem
      rcases keys_addToGroup_sub s rest c1 hmem with h | h
      · exact hnd.1 h
      · exact h1 h

/-- The grouping fold keeps the dict keys distinct. -/
theorem groupFold_keys_nodup (l : List ArticleSummary) :
    ∀ acc, (acc.map Prod.fst).Nodup →
      ((l.foldl addToGroup acc).map Prod.fst).Nodup := by
  induction l with
  | nil => exact fun acc h => h
  | cons s rest ih =>
    intro acc h
    exact ih _ (addToGroup_keys_nodup s acc h)

/-- Insertion preserves the every-bucket-holds-its-own-category invariant. -/
theorem addToGroup_members (s : ArticleSummary) :
    ∀ acc, (∀ p ∈ acc, ∀ x ∈ p.2, x.category = p.1) →
      ∀ p ∈ addToGroup acc s, ∀ x ∈ p.2, x.category = p.1 := by
  intro acc
  induction acc with
  | nil =>
    intro _ p hp x hx
    simp [addToGroup] at hp
    subst hp
    simp at hx
    subst hx
    rfl
  | cons q rest ih =>
    obtain ⟨c1, ls⟩ := q
    intro hinv p hp x hx
    by_cases h1 : c1 = s.category
    · simp only [addToGroup, if_pos h1, List.mem_cons] at hp
      rcases hp with hp | hp
      · subst hp
        simp only [List.mem_append, List.mem_singleton] at hx
        rcases hx with hx | hx
        · exact hinv (c1, ls) (List.mem_cons_self _ _) x hx
        · subst hx; exact h1.symm
      · exact hinv p (List.mem_cons_of_mem _ hp) x hx
    · simp only [addToGroup, if_neg h1, List.mem_cons] at hp
      rcases hp with hp | hp
      · subst hp
        exact hinv (c1, ls) (List.mem_cons_self _ _) x hx
      · exact ih (fun q hq => hinv q (List.mem_cons_of_mem _ hq)) p hp x hx

/-- The grouping fold keeps every bucket holding only summaries of its own
category label. -/
theorem groupFold_members (l : List ArticleSummary) :
    ∀ acc, (∀ p ∈ acc, ∀ x ∈ p.2, x.category = p.1) →
      ∀ p ∈ l.foldl addToGroup acc, ∀ x ∈ p.2, x.category = p.1 := by
  induction l with
  | nil => exact fun acc h => h
  | cons s rest ih =>
    intro acc h
    exact ih _ (addToGroup_members s acc h)

/-- With distinct keys, every entry of the association list is what lookup
finds for its key. -/
theorem mem_getBucket (p : PyStr × List ArticleSummary) :
    ∀ acc : List (PyStr × List ArticleSummary),
      (acc.map Prod.fst).Nodup → p ∈ acc → getBucket p.1 acc = p.2 := by
  intro acc
  induction acc with
  | nil => intro _ hp; simp at hp
  | cons q rest ih =>
    obtain ⟨c1, ls⟩ := q
    intro hnd hp
    simp only [List.map_cons, List.nodup_cons] at hnd
    rcases List.mem_cons.mp hp with hp | hp
    · subst hp
      rw [getBucket_cons, if_pos rfl]
    · rw [getBucket_cons]
      have hne : ¬ c1 = p.1 := by
        intro he
        exact hnd.1 (he ▸ List.mem_map_of_mem Prod.fst hp)
      rw [if_neg hne]
      exact ih hnd.2 hp

/-- Insertion extends the multiset of grouped summaries by exactly the
inserted one. -/
theorem addToGroup_flatten (s : ArticleSummary) :
    ∀ acc : List (PyStr × List ArticleSummary),
      ((addToGroup acc s).map Prod.snd).flatten.Perm
        ((acc.map Prod.snd).flatten ++ [s]) := by
  intro acc
  induction acc with
  | nil => simp [addToGroup]
  | cons p rest ih =>
    obtain ⟨c1, ls⟩ := p
    by_cases h1 : c1 = s.category
    · simp only [addToGroup, if_pos h1, List.map_cons, List.flatten_cons]
      rw [List.append_assoc, List.append_assoc]
      exact List.Perm.append_left ls List.perm_append_comm
    · simp only [addToGroup, if_neg h1, List.map_cons, List.flatten_cons]
      rw [List.append_assoc]
      exact List.Perm.append_left ls ih

/-- The grouping fold accumulates exactly the input summaries. -/
theorem groupFold_flatten (l : List ArticleSummary) :
    ∀ acc, ((l.foldl addToGroup acc).map Prod.snd).flatten.Perm
      ((acc.map Prod.snd).flatten ++ l) := by
  induction l with
  | nil => intro acc; simp
  | cons s rest ih =>
    intro acc
    simp only [List.foldl_cons]
    refine (ih (addToGroup acc s)).trans ?_
    refine (List.Perm.append_right rest (addToGroup_flatten s acc)).trans ?_
    rw [List.append_assoc]
    exact List.Perm.refl _

/-- Sorting every bucket permutes the flattened contents. -/
theorem sortBuckets_flatten (g : List (PyStr × List ArticleSummary)) :
    ((g.map (fun p => p.2.insertionSort impOrder)).flatten).Perm
      ((g.map Prod.snd).flatten) := by
  induction g with
  | nil => simp
  | cons p rest ih =>
    simp only [List.map_cons, List.flatten_cons]
    exact List.Perm.append (List.perm_insertionSort impOrder p.2) ih

/-- C9: the Categorizer's grouping is complete and partitioning: the union
of all buckets is exactly the input multiset (no omission, no duplication);
every summary sits only in the bucket of its own category label; each bucket
is sorted by descending importance; and each bucket equals the stable
descending sort of the input subsequence of its category (so insertion order
among equal importance scores is preserved). -/
theorem grouping_partitions (summaries : List ArticleSummary) :
    (((group_summaries_by_category summaries).map Prod.snd).flatten).Perm summaries ∧
    (∀ p ∈ group_summaries_by_category summaries, ∀ x ∈ p.2, x.category = p.1) ∧
    (∀ p ∈ group_summaries_by_category summaries, List.Sorted impOrder p.2) ∧
    (∀ p ∈ group_summaries_by_category summaries,
      p.2 = (summaries.filter (fun x => decide (x.category = p.1))).insertionSort impOrder) := by
  have hchar : ∀ p ∈ group_summaries_by_category summaries,
      p.2 = (summaries.filter (fun x => decide (x.category = p.1))).insertionSort impOrder := by
    intro p hp
    unfold group_summaries_by_category at hp
    rcases List.mem_map.mp hp with ⟨q, hq, hqe⟩
    have hbucket : getBucket q.1 (summaries.foldl addToGroup []) = q.2 :=
      mem_getBucket q _ (groupFold_keys_nodup summaries [] (by simp)) hq
    have hfold := getBucket_foldl q.1 summaries []
    have hget0 : getBucket q.1 ([] : List (PyStr × List ArticleSummary)) = [] := rfl
    rw [hbucket, hget0, List.nil_append] at hfold
    subst hqe
    simp only
    rw [hfold]
  refine ⟨?_, ?_, ?_, hchar⟩
  · unfold group_summaries_by_category
    rw [List.map_map]
    have h1 := sortBuckets_flatten (summaries.foldl addToGroup [])
    have h2 := groupFold_flatten summaries ([] : List (PyStr × List ArticleSummary))
    simp only [List.map_nil, List.flatten_nil, List.nil_append] at h2
    exact (h1.trans h2)
  · intro p hp x hx
    unfold group_summaries_by_category at hp
    rcases List.mem_map.mp hp with ⟨q, hq, hqe⟩
    subst hqe
    simp only at hx
    have hmem : x ∈ q.2 := (List.perm_insertionSort impOrder q.2).mem_iff.mp hx
    exact groupFold_members summaries [] (by simp) q hq x hmem
  · intro p hp
    rw [hchar p hp]
    exact List.sorted_insertionSort impOrder _

/-! ### Content-dedup discard behaviour (C8, amended) -/

/-- A scan step introduces no article beyond the incomer. -/
theorem scanStep_mem (u : List Article) (cur x : Article) :
    x ∈ scanStep u cur → x ∈ u ∨ x = cur := by
  unfold scanStep
  cases hf : u.find? (fun existing => are_similar_articles cur existing) with
  | none =>
    intro h
    rcases List.mem_append.mp h with h | h
    · exact Or.inl h
    · exact Or.inr (List.mem_singleton.mp h)
  | some e =>
    dsimp only
    split_ifs with hrel
    · intro h
      rcases List.mem_append.mp h with h | h
      · exact Or.inl (List.mem_of_mem_erase h)
      · exact Or.inr (List.mem_singleton.mp h)
    · exact Or.inl

/-- A scan step cannot re-introduce an absent article other than the
incomer. -/
theorem scanStep_not_mem (u : List Article) (cur c : Article)
    (h1 : c ∉ u) (h2 : cur ≠ c) : c ∉ scanStep u cur := by
  intro h
  rcases scanStep_mem u cur c h with h | h
  · exact h1 h
  · exact h2 h.symm

/-- An article absent from the retained list and not among the remaining
incomers stays absent. -/
theorem foldl_scan_not_mem (l : List Article) :
    ∀ (u : List Article) (c : Article), c ∉ u → (∀ x ∈ l, x ≠ c) →
      c ∉ l.foldl scanStep u := by
  induction l with
  | nil => intro u c h _; exact h
  | cons a rest ih =>
    intro u c h hl
    exact ih _ c (scanStep_not_mem u a c h (hl a (List.mem_cons_self a rest)))
      (fun x hx => hl x (List.mem_cons_of_mem a hx))

/-- Every retained article comes from the initial list or the processed
input. -/
theorem foldl_scan_mem (l : List Article) :
    ∀ (u : List Article) (x : Article), x ∈ l.foldl scanStep u →
      x ∈ u ∨ x ∈ l := by
  induction l with
  | nil => intro u x h; exact Or.inl h
  | cons a rest ih =>
    intro u x h
    rcases ih _ x h with h | h
    · rcases scanStep_mem u a x h with h | h
      · exact Or.inl h
      · exact Or.inr (h ▸ List.mem_cons_self a rest)
    · exact Or.inr (List.mem_cons_of_mem a h)

/-- A scan step preserves distinctness of the retained list. -/
theorem scanStep_nodup (u : List Article) (cur : Article)
    (hnd : u.Nodup) (hc : cur ∉ u) : (scanStep u cur).Nodup := by
  unfold scanStep
  cases hf : u.find? (fun existing => are_similar_articles cur existing) with
  | none =>
    rw [List.nodup_append]
    exact ⟨hnd, List.nodup_singleton cur, fun x hx => by
      simp only [List.mem_singleton]
      intro he; exact hc (he ▸ hx)⟩
  | some e =>
    dsimp only
    split_ifs with hrel
    · rw [List.nodup_append]
      refine ⟨hnd.erase e, List.nodup_singleton cur, fun x hx => ?_⟩
      simp only [List.mem_singleton]
      intro he
      exact hc (he ▸ List.mem_of_mem_erase hx)
    · exact hnd

/-- The scan keeps the retained list duplicate-free for duplicate-free
input. -/
theorem foldl_scan_nodup (l : List Article) :
    ∀ u : List Article, u.Nodup → (∀ x ∈ l, x ∉ u) → l.Nodup →
      (l.foldl scanStep u).Nodup := by
  induction l with
  | nil => exact fun u h _ _ => h
  | cons a rest ih =>
    intro u hu hd hl
    rcases List.nodup_cons.mp hl with ⟨ha, hrest⟩
    apply ih _ (scanStep_nodup u a hu (hd a (List.mem_cons_self a rest)))
      (fun x hx => scanStep_not_mem u a x (hd x (List.mem_cons_of_mem a hx))
        (fun he => ha (he ▸ hx)))
      hrest

/-- C8 (amended): when the incoming article `c` meets its first similar
retained article `e` (the scan stops there), the pair's lower-relevance
member — the incomer on ties — is discarded and never appears in the final
output (for pairwise-distinct inputs): if `c` does not beat `e`, `c` is
absent from the output; if `c` beats `e`, the replaced `e` is absent.  The
survivor is retained at that step but not necessarily in the final output,
and the output may retain two articles judged the same story (see the
counterexample). -/
theorem dedup_discards_loser (l₁ l₂ : List Article) (c e : Article)
    (hnd : (l₁ ++ c :: l₂).Nodup)
    (hfind : (l₁.foldl scanStep []).find?
        (fun existing => are_similar_articles c existing) = some e) :
    (¬ e.relevance_score < c.relevance_score →
      c ∉ deduplicate_by_content (l₁ ++ c :: l₂)) ∧
    (e.relevance_score < c.relevance_score →
      e ∉ deduplicate_by_content (l₁ ++ c :: l₂)) := by
  have he_mem_u : e ∈ l₁.foldl scanStep [] := List.mem_of_find?_eq_some hfind
  have he_l₁ : e ∈ l₁ := by
    rcases foldl_scan_mem l₁ [] e he_mem_u with h | h
    · simp at h
    · exact h
  rw [List.nodup_append] at hnd
  obtain ⟨hnd₁, hnd₂, hdisj⟩ := hnd
  rcases List.nodup_cons.mp hnd₂ with ⟨hc_l₂, hnd_l₂⟩
  have hc_not_l₁ : c ∉ l₁ := fun h => hdisj h (List.mem_cons_self c l₂)
  have hc_not_u : c ∉ l₁.foldl scanStep [] := fun h => by
    rcases foldl_scan_mem l₁ [] c h with h | h
    · simp at h
    · exact hc_not_l₁ h
  have hu_nodup : (l₁.foldl scanStep []).Nodup :=
    foldl_scan_nodup l₁ [] List.nodup_nil (by simp) hnd₁
  have he_ne_c : e ≠ c := fun h => hc_not_l₁ (h ▸ he_l₁)
  have he_not_l₂ : e ∉ l₂ := fun h =>
    hdisj he_l₁ (List.mem_cons_of_mem c h)
  have hl₂_ne_c : ∀ x ∈ l₂, x ≠ c := fun x hx he => hc_l₂ (he ▸ hx)
  have hlen : ¬ (l₁ ++ c :: l₂).length ≤ 1 := by
    cases l₁ with
    | nil => simp at he_l₁
    | cons a t => simp [List.length_append]
  have hstep_keep : ∀ u : List Article,
      u.find? (fun existing => are_similar_articles c existing) = some e →
      ¬ e.relevance_score < c.relevance_score → scanStep u c = u := by
    intro u hf hle
    unfold scanStep
    rw [hf]
    dsimp only
    rw [if_neg hle]
  have hstep_swap : ∀ u : List Article,
      u.find? (fun existing => are_similar_articles c existing) = some e →
      e.relevance_score < c.relevance_score →
      scanStep u c = (u.erase e) ++ [c] := by
    intro u hf hlt
    unfold scanStep
    rw [hf]
    dsimp only
    rw [if_pos hlt]
  unfold deduplicate_by_content
  rw [if_neg hlen, List.foldl_append, List.foldl_cons]
  constructor
  · intro hle
    rw [hstep_keep _ hfind hle]
    exact foldl_scan_not_mem l₂ _ c hc_not_u hl₂_ne_c
  · intro hlt
    rw [hstep_swap _ hfind hlt]
    apply foldl_scan_not_mem
    · intro hmem
      rcases List.mem_append.mp hmem with h | h
      · exact ((hu_nodup.mem_erase_iff).mp h).1 rfl
      · exact he_ne_c (List.mem_singleton.mp h)
    · exact fun x hx he2 => he_not_l₂ (he2 ▸ hx)

/-- Witness for C8 (amended): the tying incomer `dupLoser` is discarded
against retained `dupA`, and `dupA` is discarded when the higher-scoring
`dupC` arrives. -/
theorem dedup_discards_loser_witness :
    dupLoser ∉ deduplicate_by_content [dupA, dupLoser] ∧
    dupA ∉ deduplicate_by_content [dupA, dupC] := by
  constructor
  · exact (dedup_discards_loser [dupA] [] dupLoser dupA (by decide) (by decide)).1
      (by decide)
  · exact (dedup_discards_loser [dupA] [] dupC dupA (by decide) (by decide)).2
      (by decide)

/-! ### Filter idempotence (C6) -/

/-- The fuelled LCS length is symmetric in its two strings. -/
theorem lcsF_comm : ∀ (f : Nat) (a b : PyStr), lcsF f a b = lcsF f b a := by
  intro f
  induction f with
  | zero => intro a b; rfl
  | succ f ih =>
    intro a b
    cases a with
    | nil => cases b with
      | nil => rfl
      | cons y ys => rfl
    | cons x xs =>
      cases b with
      | nil => rfl
      | cons y ys =>
        simp only [lcsF]
        by_cases h : x = y
        · rw [if_pos h, if_pos h.symm, ih]
        · rw [if_neg h, if_neg (fun hh => h hh.symm), ih xs (y :: ys), ih (x :: xs) ys,
            Nat.max_comm]

/-- LCS length is symmetric. -/
theorem lcs_comm (a b : PyStr) : lcs a b = lcs b a := by
  unfold lcs
  rw [Nat.add_comm b.length a.length, lcsF_comm]

/-- The similarity ratio is symmetric, as the spec requires of the
underlying `SequenceMatcher.ratio`. -/
theorem similarity_comm (a b : PyStr) : similarity a b = similarity b a := by
  unfold similarity
  rw [lcs_comm, Nat.add_comm b.length a.length, add_comm (b.length : ℚ) (a.length : ℚ)]

/-- Relevance computation never reads the stored relevance score. -/
theorem calculate_relevance_score_irrel (a : Article) (x : ℚ)
    (topics : List PyStr) (now : ℤ) :
    calculate_relevance { a with relevance_score := x } topics now =
      calculate_relevance a topics now := rfl

/-- The duplicate check never reads the stored relevance score. -/
theorem is_duplicate_score_irrel (cf : ContentFilter) (a : Article) (x : ℚ) :
    is_duplicate cf { a with relevance_score := x } = is_duplicate cf a := rfl

/-- The quality check never reads the stored relevance score. -/
theorem quality_score_irrel (a : Article) (x : ℚ) :
    has_good_content_quality { a with relevance_score := x } =
      has_good_content_quality a := rfl

/-- Overwriting the relevance score with its current value is the
identity. -/
theorem article_set_score_eq (a : Article) (x : ℚ)
    (h : a.relevance_score = x) : { a with relevance_score := x } = a := by
  cases a
  simp_all

/-- Passing the duplicate check means: unseen URL, and no seen title more
than 0.85-similar. -/
theorem is_duplicate_false_iff (cf : ContentFilter) (a : Article) :
    is_duplicate cf a = false ↔
      a.url ∉ cf.seen_urls ∧
      ∀ t ∈ cf.seen_titles,
        similarity (strip (lower a.title)) t ≤ 17/20 := by
  simp [is_duplicate, not_lt]

/-- An article that passes the duplicate check against larger seen sets
passes it against smaller ones. -/
theorem is_duplicate_mono (m m' : ℚ) (u u' t t' : List PyStr) (a : Article)
    (hu : u ⊆ u') (ht : t ⊆ t')
    (h : is_duplicate ⟨m', u', t'⟩ a = false) :
    is_duplicate ⟨m, u, t⟩ a = false := by
  rw [is_duplicate_false_iff] at h ⊢
  exact ⟨fun hm => h.1 (hu hm), fun s hs => h.2 s (ht hs)⟩

/-- Invariant of one `filter_articles` pass started at dedup state
`(u, t)`: the final state extends `(u, t)` by exactly the accepted URLs and
lower-cased trimmed titles; every accepted article carries its freshly
computed relevance score, meets the threshold and the quality bar, and was
no duplicate of the initial state; and each later accepted article has
title similarity at most 0.85 with (and a URL different from) each earlier
accepted one. -/
theorem filterLoop_spec (topics : List PyStr) (now : ℤ) (m : ℚ) :
    ∀ (l : List Article) (u t : List PyStr),
      (filterLoop topics now ⟨m, u, t⟩ l).state =
        ⟨m, (((filterLoop topics now ⟨m, u, t⟩ l).accepted.map (·.url)).reverse) ++ u,
            (((filterLoop topics now ⟨m, u, t⟩ l).accepted.map
               (fun a => strip (lower a.title))).reverse) ++ t⟩ ∧
      (∀ a ∈ (filterLoop topics now ⟨m, u, t⟩ l).accepted,
        a.relevance_score = calculate_relevance a topics now ∧
        m ≤ a.relevance_score ∧
        has_good_content_quality a = true ∧
        is_duplicate ⟨m, u, t⟩ a = false) ∧
      List.Pairwise (fun x y => x.url ≠ y.url ∧
        similarity (strip (lower y.title)) (strip (lower x.title)) ≤ 17/20)
        (filterLoop topics now ⟨m, u, t⟩ l).accepted := by
  intro l
  induction l with
  | nil =>
    intro u t
    refine ⟨rfl, ?_, List.Pairwise.nil⟩
    intro a ha
    simp [filterLoop] at ha
  | cons a rest ih =>
    intro u t
    by_cases hd : is_duplicate ⟨m, u, t⟩ a = true
    · simp only [filterLoop, hd, if_true]
      exact ih u t
    · have hdf : is_duplicate ⟨m, u, t⟩ a = false := Bool.eq_false_iff.mpr hd
      simp only [filterLoop, hdf, Bool.false_eq_true, if_false]
      by_cases hs : calculate_relevance a topics now < m
      · rw [if_pos hs]
        exact ih u t
      · rw [if_neg hs]
        by_cases hq : has_good_content_quality a = true
        · rw [if_neg (by rw [quality_score_irrel]; simp [hq])]
          dsimp only
          obtain ⟨ihstate, ihall, ihpair⟩ := ih (a.url :: u) (strip (lower a.title) :: t)
          refine ⟨?_, ?_, ?_⟩
          · rw [ihstate]
            simp [List.append_assoc]
          · intro b hb
            rcases List.mem_cons.mp hb with hb | hb
            · subst hb
              refine ⟨rfl, not_lt.mp hs, ?_, ?_⟩
              · rw [quality_score_irrel]
                exact hq
              · rw [is_duplicate_score_irrel]
                exact hdf
            · obtain ⟨g1, g2, g3, g4⟩ := ihall b hb
              exact ⟨g1, g2, g3,
                is_duplicate_mono m m u (a.url :: u) t (strip (lower a.title) :: t) b
                  (List.subset_cons_self _ _) (List.subset_cons_self _ _) g4⟩
          · rw [List.pairwise_cons]
            refine ⟨?_, ihpair⟩
            intro b hb
            have g4 := (ihall b hb).2.2.2
            rw [is_duplicate_false_iff] at g4
            constructor
            · intro he
              exact g4.1 (he ▸ List.mem_cons_self _ _)
            · exact g4.2 _ (List.mem_cons_self _ _)
        · have hqf : has_good_content_quality a = false := Bool.eq_false_iff.mpr hq
          rw [if_pos (by rw [quality_score_irrel]; rw [hqf]; rfl)]
          exact ih u t

/-- A list whose members all pass scoring, quality and the duplicate check
against the initial state, and which is pairwise URL-distinct and
title-dissimilar (both directions), is accepted in full and unchanged by
the filter loop. -/
theorem filterLoop_all_pass (topics : List PyStr) (now : ℤ) (m : ℚ) :
    ∀ (l : List Article) (u t : List PyStr),
      (∀ a ∈ l, a.relevance_score = calculate_relevance a topics now ∧
        m ≤ a.relevance_score ∧ has_good_content_quality a = true ∧
        is_duplicate ⟨m, u, t⟩ a = false) →
      List.Pairwise (fun x y => x.url ≠ y.url ∧
        similarity (strip (lower x.title)) (strip (lower y.title)) ≤ 17/20 ∧
        similarity (strip (lower y.title)) (strip (lower x.title)) ≤ 17/20) l →
      (filterLoop topics now ⟨m, u, t⟩ l).accepted = l := by
  intro l
  induction l with
  | nil => intro u t _ _; rfl
  | cons a rest ih =>
    intro u t hall hpair
    obtain ⟨h1, h2, h3, h4⟩ := hall a (List.mem_cons_self a rest)
    have ha' : { a with relevance_score := calculate_relevance a topics now } = a :=
      article_set_score_eq a _ h1
    simp only [filterLoop, h4, Bool.false_eq_true, if_false]
    rw [ha']
    rw [if_neg (not_lt.mpr (h1 ▸ h2)), if_neg (by simp [h3])]
    dsimp only
    rcases List.pairwise_cons.mp hpair with ⟨hhead, htail⟩
    have hrest : ∀ b ∈ rest,
        b.relevance_score = calculate_relevance b topics now ∧
        m ≤ b.relevance_score ∧ has_good_content_quality b = true ∧
        is_duplicate ⟨m, a.url :: u, strip (lower a.title) :: t⟩ b = false := by
      intro b hb
      obtain ⟨g1, g2, g3, g4⟩ := hall b (List.mem_cons_of_mem a hb)
      rw [is_duplicate_false_iff] at g4
      refine ⟨g1, g2, g3, ?_⟩
      rw [is_duplicate_false_iff]
      constructor
      · intro hm
        rcases List.mem_cons.mp hm with hm | hm
        · exact (hhead b hb).1 hm.symm
        · exact g4.1 hm
      · intro s hs
        rcases List.mem_cons.mp hs with hs | hs
        · rw [hs]
          exact (hhead b hb).2.2
        · exact g4.2 s hs
    rw [ih _ _ hrest htail]

/-- C6: running the Curation Filter a second time, with fresh dedup state
and the same topics and reference instant, on a sequence it has already
filtered returns that sequence unchanged; moreover no two articles of the
output have lower-cased trimmed title similarity above 0.85 (in either
direction — the embedded similarity, modelled from the spec's symmetric
`SequenceMatcher.ratio`, is symmetric). -/
theorem filter_idempotent (m : ℚ) (topics : List PyStr) (now : ℤ)
    (articles : List Article) :
    (filter_articles ⟨m, [], []⟩
        ((filter_articles ⟨m, [], []⟩ articles topics now).2) topics now).2 =
      (filter_articles ⟨m, [], []⟩ articles topics now).2 ∧
    List.Pairwise (fun x y =>
      similarity (strip (lower x.title)) (strip (lower y.title)) ≤ 17/20 ∧
      similarity (strip (lower y.title)) (strip (lower x.title)) ≤ 17/20)
      ((filter_articles ⟨m, [], []⟩ articles topics now).2) := by
  obtain ⟨hstate, hall, hpair⟩ := filterLoop_spec topics now m articles [] []
  simp only [filter_articles]
  set acc := (filterLoop topics now ⟨m, [], []⟩ articles).accepted with hacc
  set out := acc.insertionSort articleOrder with hout
  have hperm : out.Perm acc := List.perm_insertionSort articleOrder acc
  have hsym : List.Pairwise (fun x y => x.url ≠ y.url ∧
      similarity (strip (lower x.title)) (strip (lower y.title)) ≤ 17/20 ∧
      similarity (strip (lower y.title)) (strip (lower x.title)) ≤ 17/20) acc :=
    hpair.imp (fun hxy =>
      ⟨hxy.1, by rw [similarity_comm]; exact hxy.2, hxy.2⟩)
  have hsymOut : List.Pairwise (fun x y => x.url ≠ y.url ∧
      similarity (strip (lower x.title)) (strip (lower y.title)) ≤ 17/20 ∧
      similarity (strip (lower y.title)) (strip (lower x.title)) ≤ 17/20) out :=
    (List.Perm.pairwise_iff
      (fun hxy => ⟨hxy.1.symm, hxy.2.2, hxy.2.1⟩) hperm).mpr hsym
  have hallOut : ∀ a ∈ out,
      a.relevance_score = calculate_relevance a topics now ∧
      m ≤ a.relevance_score ∧
      has_good_content_quality a = true ∧
      is_duplicate ⟨m, [], []⟩ a = false :=
    fun a ha => hall a (hperm.mem_iff.mp ha)
  have haccept : (filterLoop topics now ⟨m, [], []⟩ out).accepted = out :=
    filterLoop_all_pass topics now m out [] [] hallOut hsymOut
  have hsorted : List.Sorted articleOrder out := List.sorted_insertionSort articleOrder acc
  constructor
  · rw [haccept]
    exact List.Sorted.insertionSort_eq hsorted
  · exact hsymOut.imp (fun hxy => ⟨hxy.2.1, hxy.2.2⟩)

end PersonalNews
